import Mathlib

/-!
Verification of the Dysdera web crawler (src/dysdera) against its
natural-language specification.

Shallow embedding conventions:
* Python machine behaviour is modelled explicitly where it decides a claim:
  a `finally` block that executes `return` supersedes the body's outcome
  (`pyFinallyReturn`); a coroutine object returned without `await` is a
  truthy Python value (`PyBoolVal`).
* Python `str` comparison is code-point lexicographic; we model it on
  `List Char` so that the kernel can evaluate it (`charsLE`).  Python
  `str.startswith` is `strStartsWith`.
* Python `sorted` is the stable sort with respect to the key order; we model
  it by the (unique) stable insertion sort `sortStable`.
* `datetime` values are abstracted as `Nat` and md5 as a function
  parameter; no claim depends on their internals.  hashlib HASH objects
  carry no `__eq__` and compare by identity, modelled by an object-id tag.
-/

namespace Dysdera


/-! ## Python-semantics helpers -/

/-- Semantics of a Python `try: <body> finally: return <ret>`: when the
`finally` block executes a `return`, that return value supersedes any value
returned by, or exception raised in, the body.  The body's outcome is
discarded; the `finally` expression (which may itself raise, hence the
caller may choose `R` to be an `Except` type) is the result. -/
def pyFinallyReturn {A R : Type} (_body : A) (ret : R) : R := ret

/-- Code-point lexicographic `≤` on strings, as Python compares `str`
values, phrased on the character lists so the kernel can evaluate it. -/
def charsLE : List Char → List Char → Bool
  | [], _ => true
  | _ :: _, [] => false
  | a :: as, b :: bs =>
    if a.toNat < b.toNat then true
    else if b.toNat < a.toNat then false
    else charsLE as bs

/-- Python `s.startswith(pre)`: `pre` is a prefix of `s`. -/
def strStartsWith (s pre : String) : Bool := pre.data.isPrefixOf s.data

/-- Stable insertion of `x` into a sorted list: `x` is placed after every
element `y` with `le y x`, so equal elements keep their original order. -/
def insSorted {α : Type} (le : α → α → Bool) (x : α) : List α → List α
  | [] => [x]
  | y :: ys => if le y x then y :: insSorted le x ys else x :: y :: ys

/-- Stable insertion sort: the input is consumed left to right and each
element is inserted after every already-placed element `y` with `le y x`,
so equal-key elements keep their input order.  Agrees with Python `sorted`
(Timsort) for every total preorder `le`, since both are stable sorts
(`sortStable_ties_in_input_order` exercises the tie order). -/
def sortStable {α : Type} (le : α → α → Bool) (l : List α) : List α :=
  l.foldl (fun acc x => insSorted le x acc) []

/-- Binary digit sum with explicit fuel; `n` itself is always enough fuel
since halving reaches 0 within `n` steps. -/
def popcountFuel : Nat → Nat → Nat
  | 0, _ => 0
  | f + 1, n => if n = 0 then 0 else n % 2 + popcountFuel f (n / 2)

/-- Number of set bits, Python `bin(n).count("1")`. -/
def popcount (n : Nat) : Nat := popcountFuel n n

/-! ## C1 — `Policy.should_visit` and the enqueue protocol (`load_queue`)

Source: `src/dysdera/policy.py` lines 61-64 and
`src/dysdera/dysderacrawler.py` lines 41-75.

`should_visit` is an `async def`.  In the `sitemap is None` branch it
executes `return self.selection_policy(link)` WITHOUT `await`: since
`selection_policy` is a coroutine function (e.g. the defaults
`default_true`/`default_false` and the `DomainPolicy` predicates are all
`async def`), the returned value is a coroutine object, not a `bool`.
The caller `load_queue` does `if await policy.should_visit(page, ...)`:
awaiting `should_visit` yields that inner coroutine object, and Python's
truthiness of a coroutine object is `True`.  We model the two kinds of
value `should_visit` can produce: -/

/-- Value produced by the `async def should_visit`: either an actual bool
(the sitemap branch, which awaits) or a coroutine object returned without
being awaited (the `sitemap is None` branch).  `wouldReturn` records what
the coroutine would produce if it were awaited. -/
inductive PyBoolVal : Type where
  | bool (b : Bool) : PyBoolVal
  | coroutine (wouldReturn : Bool) : PyBoolVal
deriving DecidableEq, Repr

/-- Python truthiness: `bool(x)` of a coroutine object is `True`. -/
def PyBoolVal.truthy : PyBoolVal → Bool
  | .bool b => b
  | .coroutine _ => true

/-- `Policy.should_visit(link, sitemap)` (policy.py lines 61-64):
with no sitemap it returns `self.selection_policy(link)` without awaiting
it (a coroutine object); with a sitemap it returns
`await self.selection_policy(link) and self.sitemap_selection_policy(sitemap[link.url])`,
an actual bool. -/
def shouldVisit {Page Entry : Type} (selectionPolicy : Page → Bool)
    (sitemapSelectionPolicy : Entry → Bool) (link : Page)
    (sitemap : Option Entry) : PyBoolVal :=
  match sitemap with
  | none => .coroutine (selectionPolicy link)
  | some entry => .bool (selectionPolicy link && sitemapSelectionPolicy entry)

/-- Shared crawler state relevant to `load_queue` and the dispatcher
(`dysderacrawler.py`): the frontier map `domains_queues` (an
insertion-ordered dict, queue contents listed in push order; the cost
bookkeeping of `WebQueue` is modelled separately for C7), the dispatcher's
`event_queue` (FIFO), and the multiset of origins for which a
`crawl_domain` task has been spawned (`all_sub_task`). -/
structure CrawlState (Page : Type) where
  domainsQueues : List (String × List Page)
  eventQueue : List String
  workers : List String
deriving DecidableEq, Repr

/-- `DysderaCrawler.load_queue` (dysderacrawler.py lines 41-75) for the
default `headers_before_visit = False`: if
`await policy.should_visit(page, sitemap)` is truthy, create the frontier
for `page.url.domain` when absent (remembering `new = True`), push the
page, and finally publish `page.url.domain_str()` on the event queue when
`new`.  `pageDomain` is `page.url.domain` (the netloc keying the frontier
map) and `pageDomainStr` is `page.url.domain_str()` (the origin string the
dispatcher receives). -/
def loadQueue {Page Entry : Type} [BEq Page] (selectionPolicy : Page → Bool)
    (sitemapSelectionPolicy : Entry → Bool) (page : Page)
    (pageDomain pageDomainStr : String)
    (sitemap : Option Entry) (st : CrawlState Page) : CrawlState Page :=
  if (shouldVisit selectionPolicy sitemapSelectionPolicy page sitemap).truthy then
    let isNew := !(st.domainsQueues.any (fun q => q.1 == pageDomain))
    let queues1 := if isNew then st.domainsQueues ++ [(pageDomain, [])] else st.domainsQueues
    let queues2 := queues1.map (fun q => if q.1 == pageDomain then (q.1, q.2 ++ [page]) else q)
    { st with
      domainsQueues := queues2
      eventQueue := if isNew then st.eventQueue ++ [pageDomainStr] else st.eventQueue }
  else st

/-! ## C2 — `WebPage.parse_web_date` and `_set_head`

Source: `src/dysdera/web.py` lines 103-123.  The Python code is

  if date is not None:
      try:
          return datetime.strptime(date, RFC1123_WITH_TZ)
      except ValueError:
          try:
              return parser.parse(date)
          finally:
              return datetime.strptime(date, RFC1123_NO_TZ)
      finally:
          return None

The outer `finally: return None` executes on every exit from the `try`
statement and its `return None` supersedes whatever the body returned or
raised, so the function returns `None` for every input.  Datetimes are
abstracted as `Nat`; the three external parsers are parameters, each
returning `Except Unit Nat` (`.error ()` models a raised `ValueError`). -/

/-- `WebPage.parse_web_date` (web.py lines 103-114), with the three
external date parsers abstracted: `strptimeTZ` is
`datetime.strptime(date, "%a, %d %b %Y %H:%M:%S %Z")`, `dateutilParse` is
`dateutil.parser.parse`, `strptimeNoTZ` the timezone-less `strptime`. -/
def parseWebDate (strptimeTZ dateutilParse strptimeNoTZ : String → Except Unit Nat)
    (date : Option String) : Option Nat :=
  match date with
  | none => none
  | some d =>
    pyFinallyReturn
      (match strptimeTZ d with
       | .ok v => (.ok v : Except Unit Nat)
       | .error _ => pyFinallyReturn (dateutilParse d) (strptimeNoTZ d))
      (none : Option Nat)

/-- `WebPage._set_head` (web.py lines 116-123): the `last_modify` field it
stores, as a function of the `Last-Modified` response header. -/
def setHeadLastModify (strptimeTZ dateutilParse strptimeNoTZ : String → Except Unit Nat)
    (lastModifiedHeader : Option String) : Option Nat :=
  parseWebDate strptimeTZ dateutilParse strptimeNoTZ lastModifiedHeader

/-! ## C5 — `WebPage.get_header_info`

Source: `src/dysdera/web.py` lines 149-170.  The HEAD response is
classified by the pair (status code, optional `Location` header); the
whole body runs under `if self.head is None:` (a no-op once a head is
stored), which the claim's per-response view does not need.  The source
tests `status == 200` (not the whole 2xx range); a 3xx other than 304 with
a `Location` rewrites the URL and recurses into `download()`, which we
record as the `redirected` outcome. -/

/-- Successful outcomes of `get_header_info`: the head was stored, or the
URL was rewritten to the `Location` target and `download()` re-entered. -/
inductive HeadOutcome : Type where
  | headStored : HeadOutcome
  | redirected (location : String) : HeadOutcome
deriving DecidableEq, Repr

/-- Errors raised by the fetcher in `get_header_info`:
`ResponseStatusNotModified` and `ResponseStatusException(status)`. -/
inductive FetchError : Type where
  | notModified : FetchError
  | httpStatus (code : Nat) : FetchError
deriving DecidableEq, Repr

/-- `WebPage.get_header_info` (web.py lines 149-170), response
classification: `status == 200` stores the head; `int(status / 100) == 3`
distinguishes 304 (`ResponseStatusNotModified`), a present `Location`
(URL rewrite + `download()`), and a missing `Location`
(`ResponseStatusException(status)`); every other status raises
`ResponseStatusException(status)`. -/
def getHeaderInfo (status : Nat) (location : Option String) :
    Except FetchError HeadOutcome :=
  if status = 200 then .ok .headStored
  else if status / 100 = 3 then
    if status = 304 then .error .notModified
    else
      match location with
      | some newurl => .ok (.redirected newurl)
      | none => .error (.httpStatus status)
  else .error (.httpStatus status)

/-! ## C6 — `RobotsRules.is_respected` and `RobotsRules.add_rules`

Source: `src/dysdera/web.py` lines 391-426.  Rules are stored per domain
as an ordered list of pairs `(disallow_prefix, [allow_prefixes])`.

`add_rules` sorts the parser's disallow set and allow set by descending
length (Python `sorted(..., key=len, reverse=True)`, a stable sort) and,
for each disallow prefix, walks the allow list with a `for`/`list.remove`
loop.  Python's list iterator is index-based and is not adjusted on
mutation: after the element at position `k` is yielded and removed (the
allow set has no duplicates, so `remove` deletes exactly position `k`),
the iterator's next index `k + 1` now addresses the element that
originally sat at `k + 2` — the element right after a removed one is
skipped.  `encapsLoopFuel` models that iterator exactly; the fuel argument
only bounds the recursion and exceeds any possible number of loop steps
(the index advances every step). -/

/-- One Python `for allo in allows:` loop of `add_rules` (web.py lines
417-424), with the concurrent `allows.remove(allo)`: returns the
encapsulated allow prefixes for `proh` and the remaining allow list.
`k` is the iterator index; `break` fires when `len(proh) > len(allo)`. -/
def encapsLoopFuel (proh : String) : Nat → List String → Nat → List String × List String
  | 0, allows, _ => ([], allows)
  | fuel + 1, allows, k =>
    if h : k < allows.length then
      let allo := allows.get ⟨k, h⟩
      if proh.length > allo.length then ([], allows)
      else if strStartsWith allo proh then
        let rest := encapsLoopFuel proh fuel (allows.erase allo) (k + 1)
        (allo :: rest.1, rest.2)
      else encapsLoopFuel proh fuel allows (k + 1)
    else ([], allows)

/-- The allow-assignment loop for one disallow prefix, with enough fuel. -/
def encapsulate (proh : String) (allows : List String) : List String × List String :=
  encapsLoopFuel proh (allows.length + 1) allows 0

/-- Python `sorted(l, key=len, reverse=True)`: stable sort by descending
length. -/
def sortDescLen (l : List String) : List String :=
  sortStable (fun a b => b.length ≤ a.length) l

/-- The `for proh in prohibs:` loop of `add_rules`, threading the shrinking
allow list through successive disallow prefixes. -/
def addRulesLoop : List String → List String → List (String × List String)
  | [], _ => []
  | proh :: rest, allows =>
    let r := encapsulate proh allows
    (proh, r.1) :: addRulesLoop rest r.2

/-- `RobotsRules.add_rules` (web.py lines 413-426): the ordered rule list
stored for the robots' domain, from the parser's disallow and allow
prefixes (set-iteration order abstracted as the given list order; the
length sort makes the order canonical up to equal-length ties). -/
def addRules (prohibited allowed : List String) : List (String × List String) :=
  addRulesLoop (sortDescLen prohibited) (sortDescLen allowed)

/-- The rule walk of `RobotsRules.is_respected` (web.py lines 405-411):
the first disallow prefix that is a prefix of the path controls — permit
iff one of its allow prefixes also matches; permit if no disallow
matches. -/
def walkRules (rules : List (String × List String)) (path : String) : Bool :=
  match rules with
  | [] => true
  | (proh, allows) :: rest =>
    if strStartsWith path proh then allows.any (fun a => strStartsWith path a)
    else walkRules rest path

/-- `RobotsRules.is_respected` (web.py lines 402-411): a domain with no
entry (or an empty rule list, which `walkRules` also permits) is allowed;
otherwise walk the stored rules. -/
def isRespected (db : List (String × List (String × List String)))
    (domain path : String) : Bool :=
  match db.lookup domain with
  | none => true
  | some rules => walkRules rules path

/-! ## C7 — `WebQueue` (the priority frontier)

Source: `src/dysdera/web.py` lines 520-556.  `push` stores the tuple
`(cost(item), next(self.counter), item)` in a `heapq` heap; `pop` (and the
destructive iterator) return `heapq.heappop`, i.e. the lexicographically
smallest tuple.  The counter values are pairwise distinct, so the tuple
comparison is decided by the `(cost, counter)` key and never reaches the
item.  We model the heap by its contents and `pop` by removal of the
minimum under that key order (`heapq`'s contract). -/

/-- The `heapq` tuple order restricted to the `(cost, counter)` key:
lexicographic, cost first. -/
def keyLE {Item : Type} (a b : Int × Nat × Item) : Prop :=
  a.1 < b.1 ∨ (a.1 = b.1 ∧ a.2.1 ≤ b.2.1)

instance {Item : Type} (a b : Int × Nat × Item) : Decidable (keyLE a b) := by
  unfold keyLE
  infer_instance

/-- `WebQueue` (web.py lines 520-556): the heap contents and the
`itertools.count()` counter. -/
structure WebQueue (Item : Type) where
  heap : List (Int × Nat × Item)
  counter : Nat

/-- `WebQueue()`. -/
def WebQueue.empty {Item : Type} : WebQueue Item := ⟨[], 0⟩

/-- `WebQueue.push(item, cost)`: evaluates `cost(item)` eagerly and stores
`(cost(item), next(self.counter), item)`. -/
def WebQueue.push {Item : Type} (q : WebQueue Item) (item : Item)
    (cost : Item → Int) : WebQueue Item :=
  ⟨q.heap ++ [(cost item, q.counter, item)], q.counter + 1⟩

/-- Select the key-minimal entry among `e :: l`, returning it and the rest
(in original order).  Models which tuple `heapq.heappop` returns. -/
def selectMin {Item : Type} :
    (Int × Nat × Item) → List (Int × Nat × Item) →
      (Int × Nat × Item) × List (Int × Nat × Item)
  | e, [] => (e, [])
  | e, f :: rest =>
    if keyLE e f then
      let r := selectMin e rest
      (r.1, f :: r.2)
    else
      let r := selectMin f rest
      (r.1, e :: r.2)

/-- `WebQueue.pop()`: the key-minimal entry, or `none` on the empty heap
(where the source raises `IndexError`). -/
def WebQueue.pop {Item : Type} (q : WebQueue Item) :
    Option ((Int × Nat × Item) × WebQueue Item) :=
  match q.heap with
  | [] => none
  | e :: rest =>
    let r := selectMin e rest
    some (r.1, ⟨r.2, q.counter⟩)

/-- Destructive iteration (`__iter__`/`__next__`): pop until empty.  The
fuel is the heap length, which is exactly the number of pops. -/
def drainFuel {Item : Type} :
    Nat → List (Int × Nat × Item) → List (Int × Nat × Item)
  | 0, _ => []
  | _ + 1, [] => []
  | n + 1, e :: rest =>
    let r := selectMin e rest
    r.1 :: drainFuel n r.2

/-- The full pop sequence of a `WebQueue`. -/
def WebQueue.drain {Item : Type} (q : WebQueue Item) : List (Int × Nat × Item) :=
  drainFuel q.heap.length q.heap

/-- Pushing a whole list of `(item, cost)` pairs into a fresh queue. -/
def pushAll (pushes : List (Nat × Int)) : WebQueue Nat :=
  pushes.foldl (fun (q : WebQueue Nat) p => q.push p.1 (fun _ => p.2)) WebQueue.empty

/-! ## C8 and C10 — `DysderaParser` hashing, `WebPage.near_duplicate`,
`WebSet.contains_duplicate` / `contains_nearduplicate`

Source: `src/dysdera/parser.py` lines 101-147 and `src/dysdera/web.py`
lines 185-197 and 264-274.  Both claims concern text content, so the
parser state is its text plus the simhash cache `s_hash`; md5 is
abstracted as a function parameter (`wordHash`) — no claim depends on its
internals.

`DysderaParser.hash()` (parser.py lines 114-121) returns the hashlib
sha256 HASH *object*, caching it in `r_hash`: repeated calls on one parser
return the one cached object, and distinct parsers hold distinct objects.
hashlib HASH objects define no `__eq__`, so Python's `==` falls back to
object identity; `DysderaParser.__eq__` — `self.hash() == other.hash()`
(parser.py lines 123-124) — is therefore true exactly when the two parsers
are the same object.  Parser object identity is modelled by a `pid`
tag. -/

/-- State of a `DysderaParser` over text content: the text and the
`s_hash` cache (parser.py lines 106-112). -/
structure ParserState : Type where
  text : String
  sHash : Option Nat
deriving DecidableEq, Repr

/-- Python tokenization used by `simhash` (parser.py lines 135-136):
`for line in vals.split('\n'): for word in line.split()` — i.e. the
maximal whitespace-free runs of the text, since `str.split()` with no
argument splits on whitespace runs and discards empties. -/
def pyWordsAux : List Char → List Char → List String
  | [], acc => if acc.isEmpty then [] else [String.mk acc.reverse]
  | c :: cs, acc =>
    if c.isWhitespace then
      if acc.isEmpty then pyWordsAux cs []
      else String.mk acc.reverse :: pyWordsAux cs []
    else pyWordsAux cs (c :: acc)

/-- The word list of a text, as `simhash` iterates it. -/
def pyWords (s : String) : List String := pyWordsAux s.data []

/-- The accumulator `hashes[i]` of `simhash` (parser.py lines 133-139):
over every word, add `((wordHash word >> i) & 1) * 2 - 1`. -/
def bitContribution (wordHash : String → Nat) (words : List String) (i : Nat) : Int :=
  words.foldl
    (fun acc w => acc + ((Nat.land (wordHash w >>> i) 1 : Int) * 2 - 1)) 0

/-- The simhash value `simhash` computes on a cache miss (parser.py lines
133-143): bit `i` of the result is set iff `hashes[i] > 0`, for
`i ∈ [0, hash_size)`. -/
def computeSimhash (wordHash : String → Nat) (text : String) (size : Nat) : Nat :=
  (List.range size).foldl
    (fun acc i =>
      if bitContribution wordHash (pyWords text) i > 0 then acc ||| (1 <<< i) else acc)
    0

/-- `DysderaParser.simhash(hash_size)` for text content (parser.py lines
126-144): if `s_hash` is cached return it (ignoring `hash_size`),
otherwise compute with the requested size and cache.  Returns the value
and the updated parser state. -/
def parserSimhash (wordHash : String → Nat) (p : ParserState) (hashSize : Nat) :
    Nat × ParserState :=
  match p.sHash with
  | some v => (v, p)
  | none =>
    let v := computeSimhash wordHash p.text hashSize
    (v, ⟨p.text, some v⟩)

/-- `DysderaParser.simhash_distance(ant, size)` (parser.py lines 146-147):
`bin(ant.simhash(size) ^ self.simhash(size)).count('1')`, threading both
parsers' cache updates (`ant` is evaluated first, as in the source). -/
def simhashDistanceSt (wordHash : String → Nat) (selfP antP : ParserState)
    (size : Nat) : Nat × ParserState × ParserState :=
  let ra := parserSimhash wordHash antP size
  let rs := parserSimhash wordHash selfP size
  (popcount (Nat.xor ra.1 rs.1), rs.2, ra.2)

/-- A parser as a Python object: `pid` models the object identity of the
`DysderaParser`, and hence of the sha256 HASH object its `hash()` caches
in `r_hash` and returns (one object per parser; each `WebPage` builds its
own parser in `set_text_parser`), next to the parser's value state. -/
structure PageParser : Type where
  pid : Nat
  state : ParserState
deriving DecidableEq, Repr

/-- `WebSet.contains_duplicate` (web.py lines 264-268): any element with
`elem.duplicate(item)` (web.py lines 185-190), i.e.
`elem.parser == item.parser`, which compares the cached HASH objects —
identity comparison, true exactly when the parsers are the same object
(equal `pid`). -/
def webSetContainsDuplicate (items : List PageParser) (item : PageParser) : Bool :=
  items.any (fun e => e.pid == item.pid)

/-- `WebSet.contains_nearduplicate(item, max_distance)` (web.py lines
270-274): scan the elements in order; `elem.near_duplicate(item,
max_dist=max_distance)` (web.py lines 192-197) tests
`simhash_distance < max_dist` at the default `size_hash=64` — an `int`
comparison of simhash values, identity plays no role here.  The element's
own cache update is dropped (each element is used once here; only `item`'s
cache is threaded on). -/
def webSetContainsNearduplicate (wordHash : String → Nat)
    (items : List PageParser) (item : PageParser) (maxDistance : Nat) : Bool :=
  match items with
  | [] => false
  | e :: rest =>
    let r := simhashDistanceSt wordHash e.state item.state 64
    if r.1 < maxDistance then true
    else webSetContainsNearduplicate wordHash rest ⟨item.pid, r.2.2⟩ maxDistance

/-! ## C9 — `MosquitoParser.get_maps`

Source: `src/dysdera/parser.py` lines 333-366.  The children of a sitemap
index are the `<sitemap>` elements that carry a `<loc>` (both namespaces,
in document order); each contributes `(loc, optional lastmod)`.  The
source accumulates them in a dict `res` keyed by `URL(loc)` — insertion
ordered, duplicate keys overwritten in place — with value the lastmod
string when present and the int `0` otherwise, setting `contains_lastmod`
as soon as one entry has a lastmod.  URL keys are modelled by their loc
strings (URL equality is host+path+query equality).

When `contains_lastmod`, the source returns
`sorted(res, key=lambda x: res[x])`.  CPython `sorted` compares keys of
adjacent elements while detecting runs, so when the key list mixes `int`
and `str` (which forces at least one adjacent int/str pair) it raises
`TypeError`; when all keys are strings it is the stable sort under
code-point order, and when all keys are the int `0` it returns the
insertion order.  The three cases are modelled explicitly. -/

/-- Python dict insertion `res[k] = v`: overwrite in place if the key is
present, else append. -/
def dictUpsert (res : List (String × Option String)) (k : String)
    (v : Option String) : List (String × Option String) :=
  if res.any (fun p => p.1 == k) then
    res.map (fun p => if p.1 == k then (k, v) else p)
  else res ++ [(k, v)]

/-- The dict `res` built by the two `findall` loops of `get_maps`
(parser.py lines 341-362). -/
def buildRes (children : List (String × Option String)) :
    List (String × Option String) :=
  children.foldl (fun res c => dictUpsert res c.1 c.2) []

/-- Sort key order of `sorted(res, key=lambda x: res[x])` when every value
is a lastmod string. -/
def lastmodLE (a b : String × String) : Bool := charsLE a.2.data b.2.data

/-- `MosquitoParser.get_maps` (parser.py lines 333-366): the returned
`(loc list, has_lastmod)` pair, or the `TypeError` that `sorted` raises on
a mixed int/str key list. -/
def getMaps (children : List (String × Option String)) :
    Except String (List String × Bool) :=
  let res := buildRes children
  let containsLastmod := children.any (fun c => c.2.isSome)
  if containsLastmod then
    if res.all (fun p => p.2.isSome) then
      .ok (((sortStable lastmodLE
        (res.map (fun p => (p.1, p.2.getD "")))).map Prod.fst), true)
    else if res.all (fun p => p.2.isNone) then
      .ok (res.map Prod.fst, true)
    else
      .error "TypeError: not supported between instances of str and int"
  else
    .ok (res.map Prod.fst, false)

/-! ## C3 — the dispatcher (`DysderaCrawler.start`) and new-domain events

Source: `src/dysdera/dysderacrawler.py` lines 257-278 (and `load_queue`
lines 58-75, already modelled above).  `start` spawns one `crawl_domain`
task per seed domain and then, every 10 seconds, takes at most one origin
string from the event queue and spawns a `crawl_domain` task for it.
`load_queue` publishes `page.url.domain_str()` whenever it creates the
frontier for a domain that had none — which happens for a *seed*'s own
origin the first time the seed's worker enqueues any page of it
(`priority_crawl`, line 184, unconditionally enqueues the origin page),
since `start` creates no frontier for the seeds. -/

/-- One dispatcher poll (dysderacrawler.py lines 263-269): take at most one
origin from the event queue with `get_nowait` and spawn a `crawl_domain`
task for it. -/
def dispatcherPoll {Page : Type} (st : CrawlState Page) : CrawlState Page :=
  match st.eventQueue with
  | [] => st
  | e :: rest => { st with eventQueue := rest, workers := st.workers ++ [e] }

/-- `DysderaCrawler.start(*domains)` initial state (dysderacrawler.py
lines 259-261): no frontiers, empty event queue, one `crawl_domain` task
per seed. -/
def startState {Page : Type} (seeds : List String) : CrawlState Page :=
  ⟨[], [], seeds⟩

/-! ## C4 — politeness in `DysderaCrawler.priority_crawl`

Source: `src/dysdera/dysderacrawler.py` lines 182-245.  Each loop
iteration over a frontier target creates the politeness sleep task
(line 189, `asyncio.create_task(asyncio.sleep(delay))`) and then fetches.
The only `await politeness` of the normal path sits at line 230, *inside*
the `if await policy.should_crawl(target):` block; every other way the
iteration ends — the 304/`NotModified`, HTTP-error, timeout, connection
and decode handlers, the duplicate-policy `continue` at line 206, and the
fall-through when `should_crawl` is false (e.g. a non-HTML page) — reaches
the `finally: continue` without awaiting the sleep, so the next iteration
begins (and its fetch starts) immediately.  We model an iteration by the
ordered events it emits.  The SSL-retry branch (lines 194-198), which does
await and restart the sleep, and the canonical-URL enqueue are
claim-irrelevant and elided. -/

/-- Observable events of one `priority_crawl` iteration, in program
order. -/
inductive CrawlEv : Type where
  | sleepStart : CrawlEv
  | fetchStart : CrawlEv
  | extracted : CrawlEv
  | linksEnqueued : CrawlEv
  | sleepAwaited : CrawlEv
deriving DecidableEq, Repr

/-- Outcome of `target.download()` as the handlers of lines 231-243
classify it: a 2xx body, a 304 (`ResponseStatusNotModified`), or any other
caught failure (HTTP status error, missing download, decode error,
timeout, connection error). -/
inductive FetchResult : Type where
  | ok : FetchResult
  | notModified : FetchResult
  | failed : FetchResult
deriving DecidableEq, Repr

/-- Environment of one loop iteration: the visited-set check at line 187,
the download outcome, `violate_duplicate_policy` (line 202), and
`await policy.should_crawl(target)` (line 224). -/
structure TargetRun : Type where
  alreadyVisited : Bool
  result : FetchResult
  isDuplicate : Bool
  shouldCrawl : Bool
deriving DecidableEq, Repr

/-- One iteration of the `for target in self.domains_queues[...]` loop
(dysderacrawler.py lines 185-245), as its event trace. -/
def crawlIteration (t : TargetRun) : List CrawlEv :=
  if t.alreadyVisited then []
  else
    [.sleepStart, .fetchStart] ++
    match t.result with
    | .notModified => []
    | .failed => []
    | .ok =>
      if t.isDuplicate then []
      else
        [.extracted] ++
        (if t.shouldCrawl then [.linksEnqueued, .sleepAwaited] else [])

/-- The event trace of a whole `priority_crawl` drain over the given
targets. -/
def priorityCrawlTrace (targets : List TargetRun) : List CrawlEv :=
  (targets.map crawlIteration).flatten

/-! ## Theorems -/

/-! ### Facts about the helpers -/

theorem insSorted_perm {α : Type} (le : α → α → Bool) (x : α) (l : List α) :
    List.Perm (insSorted le x l) (x :: l) := by
  induction l with
  | nil => simp [insSorted]
  | cons y ys ih =>
    simp only [insSorted]
    by_cases h : le y x = true
    · simp only [h, if_pos]
      exact List.Perm.trans (List.Perm.cons y ih) (List.Perm.swap x y ys)
    · simp [h]

theorem sortStable_foldl_perm {α : Type} (le : α → α → Bool) :
    ∀ (l acc : List α),
      List.Perm (l.foldl (fun acc x => insSorted le x acc) acc) (acc ++ l) := by
  intro l
  induction l with
  | nil => intro acc; simp
  | cons x xs ih =>
    intro acc
    simp only [List.foldl_cons]
    refine (ih (insSorted le x acc)).trans ?_
    refine ((insSorted_perm le x acc).append (List.Perm.refl xs)).trans ?_
    exact List.perm_middle.symm

theorem sortStable_perm {α : Type} (le : α → α → Bool) (l : List α) :
    List.Perm (sortStable le l) l := by
  simpa using sortStable_foldl_perm le l []

theorem insSorted_pairwise {α : Type} (le : α → α → Bool)
    (htot : ∀ a b, le a b = true ∨ le b a = true)
    (htrans : ∀ a b c, le a b = true → le b c = true → le a c = true)
    (x : α) (l : List α) (hl : l.Pairwise (fun a b => le a b = true)) :
    (insSorted le x l).Pairwise (fun a b => le a b = true) := by
  induction l with
  | nil => simp [insSorted]
  | cons y ys ih =>
    rcases List.pairwise_cons.mp hl with ⟨hy, hys⟩
    simp only [insSorted]
    by_cases h : le y x = true
    · simp only [h, if_pos]
      refine List.pairwise_cons.mpr ⟨?_, ih hys⟩
      intro z hz
      have hz' := (insSorted_perm le x ys).mem_iff.mp hz
      rcases List.mem_cons.mp hz' with hzx | hzys
      · subst hzx; exact h
      · exact hy z hzys
    · have hxy : le x y = true := by
        rcases htot x y with h1 | h1
        · exact h1
        · exact absurd h1 h
      simp only [h, if_neg, Bool.false_eq_true, not_false_iff]
      refine List.pairwise_cons.mpr ⟨?_, hl⟩
      intro z hz
      rcases List.mem_cons.mp hz with hzy | hzys
      · subst hzy; exact hxy
      · exact htrans x y z hxy (hy z hzys)

theorem sortStable_pairwise {α : Type} (le : α → α → Bool)
    (htot : ∀ a b, le a b = true ∨ le b a = true)
    (htrans : ∀ a b c, le a b = true → le b c = true → le a c = true)
    (l : List α) :
    (sortStable le l).Pairwise (fun a b => le a b = true) := by
  have key : ∀ (l acc : List α), acc.Pairwise (fun a b => le a b = true) →
      (l.foldl (fun acc x => insSorted le x acc) acc).Pairwise
        (fun a b => le a b = true) := by
    intro l
    induction l with
    | nil => intro acc h; simpa using h
    | cons x xs ih =>
      intro acc h
      simp only [List.foldl_cons]
      exact ih _ (insSorted_pairwise le htot htrans x acc h)
  exact key l [] (by simp)

theorem sortStable_ties_in_input_order :
    sortStable (fun _ _ : Nat => true) [10, 20, 30] = [10, 20, 30] ∧
    sortStable (fun a b : Nat × Nat => decide (a.1 ≤ b.1))
        [(1, 0), (0, 1), (1, 2), (0, 3)]
      = [(0, 1), (0, 3), (1, 0), (1, 2)] :=
  ⟨rfl, rfl⟩

theorem charsLE_total (a b : List Char) : charsLE a b = true ∨ charsLE b a = true := by
  induction a generalizing b with
  | nil => left; simp [charsLE]
  | cons x xs ih =>
    cases b with
    | nil => right; simp [charsLE]
    | cons y ys =>
      simp only [charsLE]
      by_cases h1 : x.toNat < y.toNat
      · left; simp [h1]
      · by_cases h2 : y.toNat < x.toNat
        · right; simp [h2, h1]
        · simpa [h1, h2] using ih ys

theorem charsLE_trans (a b c : List Char) :
    charsLE a b = true → charsLE b c = true → charsLE a c = true := by
  induction a generalizing b c with
  | nil => intro _ _; simp [charsLE]
  | cons x xs ih =>
    cases b with
    | nil => intro h; simp [charsLE] at h
    | cons y ys =>
      cases c with
      | nil => intro _ h; simp [charsLE] at h
      | cons z zs =>
        simp only [charsLE]
        by_cases hxy : x.toNat < y.toNat
        · by_cases hyz : y.toNat < z.toNat
          · intro _ _; simp [show x.toNat < z.toNat by omega]
          · by_cases hzy : z.toNat < y.toNat
            · intro _ h; simp [hyz, hzy] at h
            · have : y.toNat = z.toNat := by omega
              intro _ _; simp [show x.toNat < z.toNat by omega]
        · by_cases hyx : y.toNat < x.toNat
          · intro h; simp [hxy, hyx] at h
          · have hxyeq : x.toNat = y.toNat := by omega
            by_cases hyz : y.toNat < z.toNat
            · intro _ _; simp [show x.toNat < z.toNat by omega]
            · by_cases hzy : z.toNat < y.toNat
              · intro _ h; simp [hyz, hzy] at h
              · have hyzeq : y.toNat = z.toNat := by omega
                have hxz1 : ¬ x.toNat < z.toNat := by omega
                have hxz2 : ¬ z.toNat < x.toNat := by omega
                simp only [hxy, hyx, hyz, hzy, hxz1, hxz2, if_false, ite_false]
                exact ih ys zs

/-- C1: the claim states that with no sitemap context
`should_visit(page)` returns exactly `selection_policy(page)` and a page
with `selection_policy = False` is not enqueued.  The code instead returns
the un-awaited coroutine object, which is truthy, so `load_queue` pushes
the page even when `selection_policy` returns `False`: with
`selection_policy ≡ False` the page is pushed into the frontier. -/
theorem should_visit_unawaited_coroutine_pushes_rejected_page :
    (∀ (selPol sitePol : Nat → Bool) (page : Nat),
        shouldVisit selPol sitePol page none = .coroutine (selPol page) ∧
        (shouldVisit selPol sitePol page none).truthy = true) ∧
    (shouldVisit (fun _ => false) (fun _ => true) 7 (none : Option Nat)
        ≠ .bool false) ∧
    (loadQueue (fun _ => false) (fun _ => true) 7 "example.com"
        "https://example.com" (none : Option Nat) ⟨[], [], []⟩).domainsQueues
      = [("example.com", [7])] := by
  refine ⟨fun selPol sitePol page => ⟨rfl, rfl⟩, by decide, by decide⟩

/-- C2: the claim states that for a response carrying a well-formed
RFC 1123 `Last-Modified` header, `_set_head` stores the parsed datetime
(non-None).  In the code the outer `finally: return None` supersedes every
return, so `parse_web_date` returns `None` for every input and `_set_head`
always stores `None` — in particular for a header the native parser
accepts. -/
theorem parse_web_date_always_none :
    (∀ (p1 p2 p3 : String → Except Unit Nat) (d : Option String),
        parseWebDate p1 p2 p3 d = none) ∧
    setHeadLastModify (fun _ => .ok 1704067200) (fun _ => .ok 1704067200)
        (fun _ => .ok 1704067200) (some "Mon, 01 Jan 2024 00:00:00 GMT") = none := by
  refine ⟨fun p1 p2 p3 d => ?_, rfl⟩
  cases d with
  | none => rfl
  | some s => rfl

/-- C5 counterexample: the claim says every 2xx HEAD response stores the
head and succeeds, but the code tests `status == 200` only: status 201
(a 2xx) raises `ResponseStatusException(201)` instead of entering
`HeadFetched`. -/
theorem get_header_info_201_fails :
    200 ≤ 201 ∧ 201 < 300 ∧
    getHeaderInfo 201 none = .error (.httpStatus 201) ∧
    getHeaderInfo 201 none ≠ .ok .headStored := by
  refine ⟨by omega, by omega, rfl, ?_⟩
  intro h
  simp [getHeaderInfo] at h

/-- C5 amended: `get_header_info` stores the head and succeeds exactly on
status 200; it fails with `NotModified` exactly on 304; it redirects
exactly on a 3xx other than 304 that carries a `Location`; and it fails
with `HttpStatus(status)` in every other case — including 2xx statuses
other than 200. -/
theorem get_header_info_classification :
    ∀ (status : Nat) (loc : Option String),
      (getHeaderInfo status loc = .ok .headStored ↔ status = 200) ∧
      (getHeaderInfo status loc = .error .notModified ↔ status = 304) ∧
      (∀ l, getHeaderInfo status loc = .ok (.redirected l) ↔
          status / 100 = 3 ∧ status ≠ 304 ∧ loc = some l) ∧
      (∀ c, getHeaderInfo status loc = .error (.httpStatus c) ↔
          c = status ∧ status ≠ 200 ∧ status ≠ 304 ∧
            (status / 100 = 3 → loc = none)) := by
  intro status loc
  by_cases h200 : status = 200
  · subst h200
    simp [getHeaderInfo]
  · by_cases h3 : status / 100 = 3
    · by_cases h304 : status = 304
      · subst h304
        simp [getHeaderInfo]
      · cases loc with
        | none =>
          have e : getHeaderInfo status none = .error (.httpStatus status) := by
            simp [getHeaderInfo, h200, h3, h304]
          rw [e]
          refine ⟨by simp [h200], by simp [h304], fun l => by simp, fun c => ?_⟩
          constructor
          · intro h
            have hc : status = c := by simpa using h
            exact ⟨hc.symm, h200, h304, fun _ => rfl⟩
          · rintro ⟨rfl, -, -, -⟩
            rfl
        | some l =>
          have e : getHeaderInfo status (some l) = .ok (.redirected l) := by
            simp [getHeaderInfo, h200, h3, h304]
          rw [e]
          refine ⟨by simp [h200], by simp [h304], fun l2 => ?_, fun c => by simp [h3]⟩
          constructor
          · intro h
            have hl : l = l2 := by simpa using h
            exact ⟨h3, h304, by rw [hl]⟩
          · rintro ⟨-, -, heq⟩
            obtain rfl : l = l2 := by simpa using heq
            rfl
    · have e : getHeaderInfo status loc = .error (.httpStatus status) := by
        simp [getHeaderInfo, h200, h3]
      rw [e]
      have hn304 : status ≠ 304 := fun hs => absurd (by omega : status / 100 = 3) h3
      refine ⟨by simp [h200], ?_, fun l2 => by simp [h3], fun c => ?_⟩
      · constructor
        · intro h; simp at h
        · intro h; exact absurd h hn304
      · constructor
        · intro h
          have hc : status = c := by simpa using h
          exact ⟨hc.symm, h200, hn304, fun h3' => absurd h3' h3⟩
        · rintro ⟨rfl, -, -, -⟩
          rfl

/-- C6: the first disallow prefix (in stored order) matching the path
controls the verdict — permit iff one of its nested allow prefixes also
matches, permit when none matches — and on the rule set built by
`add_rules` from `Disallow: /a`, `Allow: /a/b` the five concrete paths of
the claim evaluate as stated. -/
theorem is_respected_first_match_controls :
    (∀ (rules : List (String × List String)) (path : String),
        walkRules rules path = true ↔
          ∀ r ∈ rules.find? (fun r => strStartsWith path r.1),
            ∃ a ∈ r.2, strStartsWith path a = true) ∧
    addRules ["/a"] ["/a/b"] = [("/a", ["/a/b"])] ∧
    walkRules (addRules ["/a"] ["/a/b"]) "/a" = false ∧
    walkRules (addRules ["/a"] ["/a/b"]) "/a/x" = false ∧
    walkRules (addRules ["/a"] ["/a/b"]) "/a/b" = true ∧
    walkRules (addRules ["/a"] ["/a/b"]) "/a/b/c" = true ∧
    walkRules (addRules ["/a"] ["/a/b"]) "/c" = true ∧
    isRespected [("example.com", addRules ["/a"] ["/a/b"])] "example.com" "/a/b" = true := by
  refine ⟨?_, by decide, by decide, by decide, by decide, by decide, by decide, by decide⟩
  intro rules path
  induction rules with
  | nil => simp [walkRules, List.find?]
  | cons r rest ih =>
    obtain ⟨proh, allows⟩ := r
    by_cases h : strStartsWith path proh = true
    · simp [walkRules, h, List.find?, List.any_eq_true]
    · simp only [walkRules, h, if_neg, Bool.false_eq_true, not_false_iff, List.find?]
      rw [ih]

theorem keyLE_refl {Item : Type} (a : Int × Nat × Item) : keyLE a a := by
  unfold keyLE
  omega

theorem keyLE_total {Item : Type} (a b : Int × Nat × Item) :
    keyLE a b ∨ keyLE b a := by
  unfold keyLE
  omega

theorem keyLE_trans {Item : Type} (a b c : Int × Nat × Item) :
    keyLE a b → keyLE b c → keyLE a c := by
  unfold keyLE
  omega

theorem selectMin_perm {Item : Type} (e : Int × Nat × Item)
    (l : List (Int × Nat × Item)) :
    List.Perm ((selectMin e l).1 :: (selectMin e l).2) (e :: l) := by
  induction l generalizing e with
  | nil => simp [selectMin]
  | cons f rest ih =>
    simp only [selectMin]
    by_cases h : keyLE e f
    · rw [if_pos h]
      exact (List.Perm.swap f _ _).trans
        ((List.Perm.cons f (ih e)).trans (List.Perm.swap e f rest))
    · rw [if_neg h]
      exact (List.Perm.swap e _ _).trans (List.Perm.cons e (ih f))

theorem selectMin_min {Item : Type} (e : Int × Nat × Item)
    (l : List (Int × Nat × Item)) :
    ∀ x ∈ e :: l, keyLE (selectMin e l).1 x := by
  induction l generalizing e with
  | nil =>
    intro x hx
    have hxe : x = e := by simpa using hx
    rw [hxe]
    exact keyLE_refl e
  | cons f rest ih =>
    intro x hx
    simp only [selectMin]
    by_cases h : keyLE e f
    · rw [if_pos h]
      rcases List.mem_cons.mp hx with h1 | h1
      · rw [h1]
        exact ih e e (List.mem_cons_self e rest)
      · rcases List.mem_cons.mp h1 with h2 | h2
        · rw [h2]
          exact keyLE_trans _ e f (ih e e (List.mem_cons_self e rest)) h
        · exact ih e x (List.mem_cons_of_mem e h2)
    · have hfe : keyLE f e := (keyLE_total e f).resolve_left h
      rw [if_neg h]
      rcases List.mem_cons.mp hx with h1 | h1
      · rw [h1]
        exact keyLE_trans _ f e (ih f f (List.mem_cons_self f rest)) hfe
      · rcases List.mem_cons.mp h1 with h2 | h2
        · rw [h2]
          exact ih f f (List.mem_cons_self f rest)
        · exact ih f x (List.mem_cons_of_mem f h2)

theorem selectMin_length {Item : Type} (e : Int × Nat × Item)
    (l : List (Int × Nat × Item)) :
    (selectMin e l).2.length = l.length := by
  have h := (selectMin_perm e l).length_eq
  simpa using h

theorem drainFuel_perm {Item : Type} :
    ∀ (n : Nat) (l : List (Int × Nat × Item)), n = l.length →
      List.Perm (drainFuel n l) l := by
  intro n
  induction n with
  | zero =>
    intro l hl
    cases l with
    | nil => simp [drainFuel]
    | cons e rest => simp at hl
  | succ n ih =>
    intro l hl
    cases l with
    | nil => simp at hl
    | cons e rest =>
      simp only [drainFuel]
      have hlen : n = (selectMin e rest).2.length := by
        rw [selectMin_length]
        simpa using hl
      exact List.Perm.trans (List.Perm.cons _ (ih _ hlen)) (selectMin_perm e rest)

theorem drainFuel_pairwise {Item : Type} :
    ∀ (n : Nat) (l : List (Int × Nat × Item)), n = l.length →
      (drainFuel n l).Pairwise keyLE := by
  intro n
  induction n with
  | zero => intro l hl; simp [drainFuel]
  | succ n ih =>
    intro l hl
    cases l with
    | nil => simp at hl
    | cons e rest =>
      simp only [drainFuel]
      have hlen : n = (selectMin e rest).2.length := by
        rw [selectMin_length]
        simpa using hl
      refine List.pairwise_cons.mpr ⟨?_, ih _ hlen⟩
      intro x hx
      have hx2 : x ∈ (selectMin e rest).2 := (drainFuel_perm n _ hlen).mem_iff.mp hx
      have hx3 : x ∈ e :: rest :=
        (selectMin_perm e rest).mem_iff.mp (List.mem_cons_of_mem _ hx2)
      exact selectMin_min e rest x hx3

theorem pushAll_heap (pushes : List (Nat × Int)) :
    ∀ (h : List (Int × Nat × Nat)) (c : Nat),
      (pushes.foldl (fun (q : WebQueue Nat) p => q.push p.1 (fun _ => p.2))
          ⟨h, c⟩).heap
        = h ++ (List.enumFrom c pushes).map (fun p => (p.2.2, p.1, p.2.1)) := by
  induction pushes with
  | nil => intro h c; simp [List.enumFrom]
  | cons p rest ih =>
    intro h c
    simp only [List.foldl_cons]
    have hstep : (⟨h, c⟩ : WebQueue Nat).push p.1 (fun _ => p.2)
        = (⟨h ++ [(p.2, c, p.1)], c + 1⟩ : WebQueue Nat) := rfl
    rw [hstep, ih]
    simp [List.enumFrom]

theorem mem_enumFrom_fst_ge {α : Type} :
    ∀ (l : List α) (c : Nat) (y : Nat × α), y ∈ List.enumFrom c l → c ≤ y.1 := by
  intro l
  induction l with
  | nil => intro c y hy; simp [List.enumFrom] at hy
  | cons x xs ih =>
    intro c y hy
    simp only [List.enumFrom, List.mem_cons] at hy
    rcases hy with h1 | h1
    · simp [h1]
    · have := ih (c + 1) y h1
      omega

theorem enumFrom_pairwise_fst_lt {α : Type} (l : List α) :
    ∀ c : Nat, (List.enumFrom c l).Pairwise (fun a b => a.1 < b.1) := by
  induction l with
  | nil => intro c; simp [List.enumFrom]
  | cons x xs ih =>
    intro c
    simp only [List.enumFrom]
    refine List.pairwise_cons.mpr ⟨?_, ih (c + 1)⟩
    intro y hy
    have := mem_enumFrom_fst_ge xs (c + 1) y hy
    omega

/-- C7: for every sequence of pushes, the pop sequence of the frontier is
a permutation of the pushed entries (the i-th push receiving counter i)
that is sorted in non-decreasing cost order, with equal-cost entries in
strictly increasing counter order — i.e. stable FIFO; and the concrete
push order `(cost 5), (cost 1), (cost 1), (cost 3)` pops in cost order
`1, 1, 3, 5` with the two cost-1 items in insertion order. -/
theorem webqueue_drain_sorted_stable_fifo :
    (∀ pushes : List (Nat × Int),
      List.Perm ((pushAll pushes).drain)
          ((pushes.enum).map (fun p => (p.2.2, p.1, p.2.1))) ∧
      ((pushAll pushes).drain).Pairwise
          (fun a b => a.1 ≤ b.1 ∧ (a.1 = b.1 → a.2.1 < b.2.1))) ∧
    (pushAll [(10, 5), (11, 1), (12, 1), (13, 3)]).drain
      = [(1, 1, 11), (1, 2, 12), (3, 3, 13), (5, 0, 10)] := by
  constructor
  · intro pushes
    have hheap : (pushAll pushes).heap
        = (pushes.enum).map (fun p => (p.2.2, p.1, p.2.1)) := by
      have := pushAll_heap pushes [] 0
      simpa [pushAll, WebQueue.empty, List.enum] using this
    have hperm : List.Perm ((pushAll pushes).drain) ((pushAll pushes).heap) :=
      drainFuel_perm _ _ rfl
    have hkey : ((pushAll pushes).drain).Pairwise keyLE :=
      drainFuel_pairwise _ _ rfl
    have hseq0 : ((pushAll pushes).heap).Pairwise (fun a b => a.2.1 < b.2.1) := by
      rw [hheap, List.enum]
      exact List.Pairwise.map _ (fun a b hab => hab) (enumFrom_pairwise_fst_lt pushes 0)
    have hseqne : ((pushAll pushes).drain).Pairwise (fun a b => a.2.1 ≠ b.2.1) := by
      refine (List.Perm.pairwise_iff ?_ hperm).mpr ?_
      · intro a b hab
        exact hab.symm
      · exact hseq0.imp (fun hab => Nat.ne_of_lt hab)
    refine ⟨hperm.trans (by rw [hheap]), ?_⟩
    have := hkey.and hseqne
    refine this.imp ?_
    rintro a b ⟨hk, hne⟩
    unfold keyLE at hk
    refine ⟨by omega, fun hc => ?_⟩
    rcases hk with h1 | ⟨h2, h3⟩
    · omega
    · omega
  · decide

theorem contains_nearduplicate_zero_false_aux (wordHash : String → Nat) :
    ∀ (items : List PageParser) (item : PageParser),
      webSetContainsNearduplicate wordHash items item 0 = false := by
  intro items
  induction items with
  | nil => intro item; rfl
  | cons e rest ih =>
    intro item
    simp only [webSetContainsNearduplicate, Nat.not_lt_zero, if_neg, ite_false]
    exact ih _

/-- C8 counterexample: the claim says `contains_near_duplicate(p, 0)`
equals `contains_duplicate(p)`.  Take a visited set holding the page `p`
itself (`WebSet.add(p)` stores the very object): `contains_duplicate(p)`
compares `p`'s cached sha256 HASH object with itself — identity, so true —
while `contains_near_duplicate(p, 0)` tests the strict
`simhash_distance < 0` — false.  The last conjunct records the identity
semantics: an equal-text page with a *distinct* parser object is not
reported as a duplicate. -/
theorem contains_nearduplicate_zero_ne_contains_duplicate :
    webSetContainsDuplicate [⟨0, ⟨"hello world", none⟩⟩]
        ⟨0, ⟨"hello world", none⟩⟩ = true ∧
    webSetContainsNearduplicate (fun s => s.length) [⟨0, ⟨"hello world", none⟩⟩]
        ⟨0, ⟨"hello world", none⟩⟩ 0 = false ∧
    webSetContainsNearduplicate (fun s => s.length) [⟨0, ⟨"hello world", none⟩⟩]
        ⟨0, ⟨"hello world", none⟩⟩ 0
      ≠ webSetContainsDuplicate [⟨0, ⟨"hello world", none⟩⟩]
        ⟨0, ⟨"hello world", none⟩⟩ ∧
    webSetContainsDuplicate [⟨0, ⟨"hello world", none⟩⟩]
        ⟨1, ⟨"hello world", none⟩⟩ = false := by
  refine ⟨rfl, contains_nearduplicate_zero_false_aux _ _ _, ?_, rfl⟩
  rw [contains_nearduplicate_zero_false_aux]
  decide

/-- C8 amended: since the near-duplicate test uses a strict `<` against
`max_distance` (preserved by design, §9 of the spec),
`contains_near_duplicate(p, 0)` is false for every visited set and page,
so it agrees with `contains_duplicate(p)` exactly when the latter is
false; and `contains_duplicate(p)` — hash objects comparing by identity —
is true exactly when some element shares `p`'s parser object. -/
theorem contains_nearduplicate_zero_always_false :
    ∀ (wordHash : String → Nat) (items : List PageParser) (item : PageParser),
      webSetContainsNearduplicate wordHash items item 0 = false ∧
      (webSetContainsNearduplicate wordHash items item 0
          = webSetContainsDuplicate items item
        ↔ webSetContainsDuplicate items item = false) ∧
      (webSetContainsDuplicate items item = true
        ↔ ∃ e ∈ items, e.pid = item.pid) := by
  intro wordHash items item
  refine ⟨contains_nearduplicate_zero_false_aux wordHash items item, ?_, ?_⟩
  · rw [contains_nearduplicate_zero_false_aux wordHash items item]
    exact ⟨fun h => h.symm, fun h => h.symm⟩
  · simp [webSetContainsDuplicate, List.any_eq_true]

/-- C10: the first `simhash(s1)` call on a text parser computes with size
`s1` and caches; a second call with any size `s2` returns the cached value
(computed with `s1`) and leaves the state unchanged; consequently
`simhash_distance` between two parsers whose caches were filled at sizes
`s1` and `t1` is the Hamming distance of those first-use hashes, whatever
size `s2` the distance call requests. -/
theorem simhash_second_call_returns_cache :
    ∀ (wordHash : String → Nat) (ta : String) (s1 s2 : Nat),
      (parserSimhash wordHash ⟨ta, none⟩ s1).1 = computeSimhash wordHash ta s1 ∧
      (parserSimhash wordHash (parserSimhash wordHash ⟨ta, none⟩ s1).2 s2).1
        = computeSimhash wordHash ta s1 ∧
      (parserSimhash wordHash (parserSimhash wordHash ⟨ta, none⟩ s1).2 s2).2
        = (parserSimhash wordHash ⟨ta, none⟩ s1).2 ∧
      (∀ (tb : String) (t1 : Nat),
        (simhashDistanceSt wordHash (parserSimhash wordHash ⟨ta, none⟩ s1).2
            (parserSimhash wordHash ⟨tb, none⟩ t1).2 s2).1
          = popcount (Nat.xor (computeSimhash wordHash tb t1)
              (computeSimhash wordHash ta s1))) := by
  intro wordHash ta s1 s2
  refine ⟨rfl, rfl, rfl, fun tb t1 => rfl⟩

theorem buildRes_foldl_value_pred (P : Option String → Prop)
    [DecidablePred P] :
    ∀ (children : List (String × Option String))
      (acc : List (String × Option String)),
      (∀ p ∈ acc, P p.2) → (∀ c ∈ children, P c.2) →
      ∀ p ∈ children.foldl (fun res c => dictUpsert res c.1 c.2) acc, P p.2 := by
  intro children
  induction children with
  | nil => intro acc hacc hch p hp; exact hacc p hp
  | cons c cs ih =>
    intro acc hacc hch p hp
    refine ih (dictUpsert acc c.1 c.2) ?_ (fun d hd => hch d (List.mem_cons_of_mem c hd)) p hp
    intro q hq
    unfold dictUpsert at hq
    by_cases hk : acc.any (fun p => p.1 == c.1) = true
    · rw [if_pos hk] at hq
      rcases List.mem_map.mp hq with ⟨q0, hq0, hq1⟩
      by_cases hq0k : (q0.1 == c.1) = true
      · rw [if_pos hq0k] at hq1
        rw [← hq1]
        exact hch c (List.mem_cons_self c cs)
      · rw [if_neg (by simpa using hq0k)] at hq1
        rw [← hq1]
        exact hacc q0 hq0
    · rw [if_neg hk] at hq
      rcases List.mem_append.mp hq with h1 | h1
      · exact hacc q h1
      · have : q = (c.1, c.2) := by simpa using h1
        rw [this]
        exact hch c (List.mem_cons_self c cs)

/-- C9 counterexample: the claim quantifies over every index in which at
least one child has a `<lastmod>`.  With child A carrying a lastmod and
child C not, the dict values mix a string and the int 0, and `sorted`
raises `TypeError` instead of returning the sorted children. -/
theorem get_maps_mixed_lastmod_type_error :
    getMaps [("https://a.com/s1.xml", some "2024-01-01"),
             ("https://c.com/s2.xml", none)]
      = .error "TypeError: not supported between instances of str and int" ∧
    ∀ out, getMaps [("https://a.com/s1.xml", some "2024-01-01"),
             ("https://c.com/s2.xml", none)] ≠ .ok out := by
  refine ⟨rfl, fun out h => ?_⟩
  rw [show getMaps [("https://a.com/s1.xml", some "2024-01-01"),
      ("https://c.com/s2.xml", none)]
      = .error "TypeError: not supported between instances of str and int" from rfl] at h
  exact absurd h (by simp)

/-- C9 amended: for every parsed sitemap index in which every child (at
least one) has a `<lastmod>`, `get_maps` returns the children sorted
ascending by their ISO-8601 lastmod string (code-point order; a stable
permutation of the dict entries) together with the flag true; and the
concrete index with children A (lastmod 2024-01-01) and B (lastmod
2023-01-01) yields `([B, A], true)`. -/
theorem get_maps_all_lastmod_sorted :
    (∀ (c : String × String) (cs : List (String × String)),
      ∃ entries : List (String × String),
        getMaps ((c :: cs).map (fun p => (p.1, some p.2)))
          = .ok (entries.map Prod.fst, true) ∧
        entries.Pairwise (fun a b => charsLE a.2.data b.2.data = true) ∧
        List.Perm entries
          ((buildRes ((c :: cs).map (fun p => (p.1, some p.2)))).map
            (fun p => (p.1, p.2.getD "")))) ∧
    getMaps [("https://a.com/s1.xml", some "2024-01-01"),
             ("https://b.com/s2.xml", some "2023-01-01")]
      = .ok (["https://b.com/s2.xml", "https://a.com/s1.xml"], true) := by
  constructor
  · intro c cs
    set children := (c :: cs).map (fun p => (p.1, some p.2)) with hch
    have h1 : children.any (fun c => c.2.isSome) = true := by
      simp [hch]
    have h2 : (buildRes children).all (fun p => p.2.isSome) = true := by
      rw [List.all_eq_true]
      intro p hp
      have := buildRes_foldl_value_pred (fun v => v.isSome = true) children [] (by simp)
        (by intro d hd
            rcases List.mem_map.mp hd with ⟨d0, _, hd1⟩
            rw [← hd1]
            rfl)
        p hp
      exact this
    refine ⟨sortStable lastmodLE
      ((buildRes children).map (fun p => (p.1, p.2.getD ""))), ?_, ?_, ?_⟩
    · simp only [getMaps, h1, h2, if_true, ite_true]
    · exact sortStable_pairwise lastmodLE
        (fun a b => charsLE_total a.2.data b.2.data)
        (fun a b d => charsLE_trans a.2.data b.2.data d.2.data) _
    · exact sortStable_perm _ _
  · rfl

/-- C3: the claim says the dispatcher never spawns a second `crawl_domain`
task for an origin that already has one.  But a seed origin's worker,
spawned directly by `start`, publishes a new-domain event for its own
origin at its first enqueue (no frontier exists yet), and the next
dispatcher poll spawns a second `crawl_domain` task for that same origin:
after the seed's first `load_queue` and one poll, the seed origin owns two
worker tasks. -/
theorem dispatcher_spawns_second_worker_for_seed_origin :
    ∀ (domainKey originStr : String) (page : Nat),
      (dispatcherPoll (loadQueue (fun _ => true) (fun _ : Nat => true) page
          domainKey originStr none (startState [originStr]))).workers
        = [originStr, originStr] ∧
      (dispatcherPoll (loadQueue (fun _ => true) (fun _ : Nat => true) page
          domainKey originStr none (startState [originStr]))).workers.count originStr
        = 2 := by
  intro domainKey originStr page
  have h1 : loadQueue (fun _ => true) (fun _ : Nat => true) page domainKey
      originStr none (startState [originStr])
      = ⟨[(domainKey, [page])], [originStr], [originStr]⟩ := by
    simp [loadQueue, shouldVisit, PyBoolVal.truthy, startState]
  rw [h1]
  constructor
  · rfl
  · simp [dispatcherPoll, List.count_cons]

/-- C4: the claim says the loop awaits the politeness sleep between any
two successive fetches, whatever the first fetch's outcome.  In the code
the `await politeness` lives inside the `should_crawl` branch only: an
iteration whose target is not crawled for links — non-HTML page
(`should_crawl` false), duplicate, 304, or download error — emits no
`sleepAwaited`, and in each two-target run below the second `fetchStart`
follows the first with no `sleepAwaited` between them. -/
theorem politeness_sleep_not_awaited_on_skip_paths :
    (∀ (v : Bool) (r : FetchResult) (d : Bool),
        CrawlEv.sleepAwaited ∉ crawlIteration ⟨v, r, d, false⟩) ∧
    (∀ (v : Bool) (d c : Bool),
        CrawlEv.sleepAwaited ∉ crawlIteration ⟨v, .notModified, d, c⟩ ∧
        CrawlEv.sleepAwaited ∉ crawlIteration ⟨v, .failed, d, c⟩) ∧
    (∀ (v : Bool) (r : FetchResult) (c : Bool),
        CrawlEv.sleepAwaited ∉ crawlIteration ⟨v, r, true, c⟩) ∧
    priorityCrawlTrace [⟨false, .ok, false, false⟩, ⟨false, .ok, false, true⟩]
      = [.sleepStart, .fetchStart, .extracted,
         .sleepStart, .fetchStart, .extracted, .linksEnqueued, .sleepAwaited] ∧
    priorityCrawlTrace [⟨false, .ok, true, true⟩, ⟨false, .ok, false, true⟩]
      = [.sleepStart, .fetchStart,
         .sleepStart, .fetchStart, .extracted, .linksEnqueued, .sleepAwaited] ∧
    priorityCrawlTrace [⟨false, .failed, false, true⟩, ⟨false, .ok, false, true⟩]
      = [.sleepStart, .fetchStart,
         .sleepStart, .fetchStart, .extracted, .linksEnqueued, .sleepAwaited] := by
  refine ⟨?_, ?_, ?_, by decide, by decide, by decide⟩
  · intro v r d
    cases v <;> cases r <;> cases d <;> decide
  · intro v d c
    cases v <;> cases d <;> cases c <;> exact ⟨by decide, by decide⟩
  · intro v r c
    cases v <;> cases r <;> cases c <;> decide

end Dysdera
